import Mathlib

/-!
Shallow embedding of the Mandelbrot renderer in `cuda.py`.

Complex samples are modelled as pairs of rationals (the Python code uses
floating-point `complex`; the spec's contracts are stated over exact
arithmetic, which rationals realise while keeping every definition
executable).  The escape tests `abs(z) <= 2` and `abs(z) > 2` are modelled
by the equivalent squared-norm comparisons `normSq z ≤ 4` and `4 < normSq z`.
-/

/-- A complex number as a pair of rational coordinates. -/
structure Cx where
  re : ℚ
  im : ℚ
deriving DecidableEq, Repr

/-- Complex multiplication. -/
def Cx.mul (a b : Cx) : Cx := ⟨a.re * b.re - a.im * b.im, a.re * b.im + a.im * b.re⟩

/-- Complex addition. -/
def Cx.add (a b : Cx) : Cx := ⟨a.re + b.re, a.im + b.im⟩

/-- Squared magnitude; `abs z ≤ 2` in the source is `normSq z ≤ 4` here. -/
def Cx.normSq (a : Cx) : ℚ := a.re * a.re + a.im * a.im

/-- One step of the recurrence `z ← z² + c` (lines 14 and 138 of cuda.py). -/
def mandelStep (c z : Cx) : Cx := (z.mul z).add c

/-- Loop of `mandelbrot` (cuda.py lines 13-15), with `fuel = max_iter - n`
remaining iterations: `while abs(z) <= 2 and n < max_iter: z = z*z+c; n += 1`.
Returns the number of iterations still performed from state `z`. -/
def mandelbrotGo (c : Cx) : Cx → ℕ → ℕ
  | _, 0 => 0
  | z, fuel + 1 => if z.normSq ≤ 4 then mandelbrotGo c (mandelStep c z) fuel + 1 else 0

/-- Embedding of `mandelbrot(c, max_iter)` (cuda.py lines 10-16): iterate `z ← z² + c`
from `z = 0`, counting iterations while `abs(z) <= 2` and the count is
below `max_iter`. -/
def mandelbrot (c : Cx) (max_iter : ℕ) : ℕ := mandelbrotGo c ⟨0, 0⟩ max_iter

/-- Loop of `mandelbrot_cuda` (cuda.py lines 135-138), with `fuel` loop
indices remaining: `for n in range(max_iter): if abs(z) > 2: return n;
z = z*z + c`, returning `max_iter` after the loop.  Expressed as the number
of further indices consumed from state `z`. -/
def mandelbrotCudaGo (c : Cx) : Cx → ℕ → ℕ
  | _, 0 => 0
  | z, fuel + 1 => if 4 < z.normSq then 0 else mandelbrotCudaGo c (mandelStep c z) fuel + 1

/-- Embedding of `mandelbrot_cuda(c, max_iter)` (cuda.py lines 132-139). -/
def mandelbrot_cuda (c : Cx) (max_iter : ℕ) : ℕ := mandelbrotCudaGo c ⟨0, 0⟩ max_iter

/-- The orbit of `0` under `z ← z² + c`: `orbit c n` is `z_n`. -/
def orbit (c : Cx) : ℕ → Cx
  | 0 => ⟨0, 0⟩
  | n + 1 => mandelStep c (orbit c n)

/-- Orbit point `z_n` has escaped when its magnitude exceeds the radius 2. -/
def escaped (c : Cx) (n : ℕ) : Prop := 4 < (orbit c n).normSq

instance (c : Cx) (n : ℕ) : Decidable (escaped c n) := by
  unfold escaped; infer_instance

-- The two loop bodies are the same function: the CPU loop guard
-- `normSq z ≤ 4` is the negation of the GPU early return `4 < normSq z`.
lemma mandelbrotGo_eq_cudaGo (c : Cx) : ∀ (fuel : ℕ) (z : Cx),
    mandelbrotGo c z fuel = mandelbrotCudaGo c z fuel := by
  intro fuel
  induction fuel with
  | zero => intro z; rfl
  | succ n ih =>
      intro z
      by_cases h : z.normSq ≤ 4
      · simp [mandelbrotGo, mandelbrotCudaGo, h, not_lt.mpr h, ih]
      · simp [mandelbrotGo, mandelbrotCudaGo, h, lt_of_not_le h]

lemma mandelbrot_eq_cuda_aux (c : Cx) (max_iter : ℕ) :
    mandelbrot c max_iter = mandelbrot_cuda c max_iter :=
  mandelbrotGo_eq_cudaGo c max_iter _

lemma mandelbrotGo_le (c : Cx) : ∀ (fuel : ℕ) (z : Cx), mandelbrotGo c z fuel ≤ fuel := by
  intro fuel
  induction fuel with
  | zero => intro z; exact Nat.le_refl 0
  | succ n ih =>
      intro z
      by_cases h : z.normSq ≤ 4
      · simp only [mandelbrotGo, if_pos h]
        exact Nat.succ_le_succ (ih _)
      · simp only [mandelbrotGo, if_neg h]
        exact Nat.zero_le _

lemma orbit_zero_c (n : ℕ) : orbit ⟨0, 0⟩ n = ⟨0, 0⟩ := by
  induction n with
  | zero => rfl
  | succ k ih => simp [orbit, ih, mandelStep, Cx.mul, Cx.add]

/-- C1: For every complex input `c` and every positive `max_iter`, the
CPU escape evaluator `mandelbrot` and the GPU-style escape evaluator
`mandelbrot_cuda` return the same iteration count. -/
theorem mandelbrot_eq_mandelbrot_cuda (c : Cx) (max_iter : ℕ) (hpos : 0 < max_iter) :
    mandelbrot c max_iter = mandelbrot_cuda c max_iter := by
  unfold mandelbrot mandelbrot_cuda
  exact mandelbrotGo_eq_cudaGo c max_iter _

/-- Witness for C1 at `c = 1 + i`, `max_iter = 3`. -/
theorem mandelbrot_eq_mandelbrot_cuda_witness :
    0 < 3 ∧ mandelbrot ⟨1, 1⟩ 3 = mandelbrot_cuda ⟨1, 1⟩ 3 :=
  ⟨by decide, mandelbrot_eq_mandelbrot_cuda ⟨1, 1⟩ 3 (by decide)⟩

/-- C8: For every positive `max_iter`, the escape evaluator applied to
`c = 0` returns `max_iter`: the origin never escapes. -/
theorem mandelbrot_origin (max_iter : ℕ) (hpos : 0 < max_iter) :
    mandelbrot ⟨0, 0⟩ max_iter = max_iter := by
  unfold mandelbrot
  have h : ∀ fuel : ℕ, mandelbrotGo ⟨0, 0⟩ ⟨0, 0⟩ fuel = fuel := by
    intro fuel
    induction fuel with
    | zero => rfl
    | succ k ih =>
        have hz : (Cx.normSq ⟨0, 0⟩) ≤ 4 := by norm_num [Cx.normSq]
        have hstep : mandelStep ⟨0, 0⟩ ⟨0, 0⟩ = ⟨0, 0⟩ := by
          simp [mandelStep, Cx.mul, Cx.add]
        simp [mandelbrotGo, hz, hstep, ih]
  exact h max_iter

/-- Witness for C8 at `max_iter = 4`. -/
theorem mandelbrot_origin_witness : 0 < 4 ∧ mandelbrot ⟨0, 0⟩ 4 = 4 :=
  ⟨by decide, mandelbrot_origin 4 (by decide)⟩

/-- C10: For every complex `c` and `max_iter ≥ 1`, both escape
evaluators terminate with a count `n` satisfying `1 ≤ n ≤ max_iter`:
`z` starts at `0` with `|0| ≤ 2`, so at least one iteration always runs,
and the count never exceeds `max_iter`. -/
theorem mandelbrot_range (c : Cx) (max_iter : ℕ) (hpos : 1 ≤ max_iter) :
    1 ≤ mandelbrot c max_iter ∧ mandelbrot c max_iter ≤ max_iter ∧
    1 ≤ mandelbrot_cuda c max_iter ∧ mandelbrot_cuda c max_iter ≤ max_iter := by
  obtain ⟨m, rfl⟩ : ∃ m, max_iter = m + 1 := ⟨max_iter - 1, by omega⟩
  have hz : (Cx.normSq ⟨0, 0⟩) ≤ 4 := by norm_num [Cx.normSq]
  have h1 : 1 ≤ mandelbrot c (m + 1) := by
    unfold mandelbrot
    simp only [mandelbrotGo, if_pos hz]
    exact Nat.succ_le_succ (Nat.zero_le _)
  have h2 : mandelbrot c (m + 1) ≤ m + 1 := mandelbrotGo_le c (m + 1) _
  have heq : mandelbrot c (m + 1) = mandelbrot_cuda c (m + 1) :=
    mandelbrot_eq_cuda_aux c (m + 1)
  exact ⟨h1, h2, heq ▸ h1, heq ▸ h2⟩

/-- Witness for C10 at `c = 5 + 5i`, `max_iter = 2`. -/
theorem mandelbrot_range_witness :
    1 ≤ 2 ∧ (1 ≤ mandelbrot ⟨5, 5⟩ 2 ∧ mandelbrot ⟨5, 5⟩ 2 ≤ 2 ∧
      1 ≤ mandelbrot_cuda ⟨5, 5⟩ 2 ∧ mandelbrot_cuda ⟨5, 5⟩ 2 ≤ 2) :=
  ⟨by decide, mandelbrot_range ⟨5, 5⟩ 2 (by decide)⟩

/-- C3 (counterexample): The claim says the evaluator returns `0`
whenever `|c| > 2`; at `c = 3`, `max_iter = 5`, both evaluators return `1`:
`z` starts at `0`, so the first iteration always executes before the escape
of `z₁ = c` is detected. -/
theorem mandelbrot_outside_counterexample :
    4 < (Cx.normSq ⟨3, 0⟩) ∧ mandelbrot ⟨3, 0⟩ 5 = 1 ∧ mandelbrot_cuda ⟨3, 0⟩ 5 = 1 := by
  refine ⟨by norm_num [Cx.normSq], ?_, ?_⟩ <;>
    norm_num [mandelbrot, mandelbrot_cuda, mandelbrotGo, mandelbrotCudaGo,
      mandelStep, Cx.mul, Cx.add, Cx.normSq]

/-- C3 (amended): For every complex `c` with `|c| > 2` and every
positive `max_iter`, the escape evaluator returns `1` (not `0`): the loop
always performs the first iteration because `z₀ = 0` has `|z₀| ≤ 2`, and
then detects the escape of `z₁ = c`. -/
theorem mandelbrot_outside_returns_one (c : Cx) (max_iter : ℕ)
    (hpos : 0 < max_iter) (hc : 4 < c.normSq) :
    mandelbrot c max_iter = 1 ∧ mandelbrot_cuda c max_iter = 1 := by
  obtain ⟨m, rfl⟩ : ∃ m, max_iter = m + 1 := ⟨max_iter - 1, by omega⟩
  have hz : (Cx.normSq ⟨0, 0⟩) ≤ 4 := by norm_num [Cx.normSq]
  have hstep : mandelStep c ⟨0, 0⟩ = c := by
    simp [mandelStep, Cx.mul, Cx.add]
  have hmain : mandelbrot c (m + 1) = 1 := by
    unfold mandelbrot
    simp only [mandelbrotGo, if_pos hz, hstep]
    cases m with
    | zero => rfl
    | succ k =>
        simp only [mandelbrotGo, if_neg (not_le.mpr hc)]
  exact ⟨hmain, (mandelbrot_eq_cuda_aux c (m + 1)) ▸ hmain⟩

/-- Embedding of `np.linspace(a, b, n)` (cuda.py lines 21-22): `n` evenly spaced points
from `a` to `b`, both endpoints included (`a + i*(b-a)/(n-1)`).  For `n = 1`
the term `i * (b - a) / (n - 1)` is `0 * (b - a) / 0 = 0`, matching numpy's
single point `a`. -/
def linspace (a b : ℚ) (n : ℕ) : List ℚ :=
  (List.range n).map (fun i : ℕ => a + (i : ℚ) * (b - a) / ((n : ℚ) - 1))

/-- Embedding of `count.reshape((height, width))` (cuda.py line 28) on a flat row-major
buffer: entry `(r, c)` of the result is element `r*width + c` of the flat
list. -/
def reshape2 (flat : List ℕ) (height width : ℕ) : List (List ℕ) :=
  (List.range height).map (fun r => (List.range width).map (fun c => flat.getD (r * width + c) 0))

/-- Embedding of `compute_mandelbrot_region` (cuda.py lines 18-28).  The flat sample
buffer `np.array(np.meshgrid(x, y)).T.reshape(-1, 2)` enumerates
`(x[col], y[row])` with `col` outermost (flat index `col*height + row`),
and is then reshaped row-major to `(height, width)`. -/
def compute_mandelbrot_region (xmin xmax ymin ymax : ℚ) (width height max_iter : ℕ) :
    List (List ℕ) :=
  let x := linspace xmin xmax width
  let y := linspace ymin ymax height
  let flat := (x.map (fun xv => y.map (fun yv => mandelbrot ⟨xv, yv⟩ max_iter))).flatten
  reshape2 flat height width

/-- Embedding of `np.concatenate(..., axis=1)`: join two grids side by side, row by row. -/
def hconcat (A B : List (List ℕ)) : List (List ℕ) := List.zipWith (fun r s => r ++ s) A B

/-- The CPU path of `ZoomableMandelbrot.plot_mandelbrot` (cuda.py
lines 78-107): quadrant split at the viewport midpoints, the line-95 swap
`regions[2], regions[1] = regions[1], regions[2]` (so the computed results
arrive in the order Bottom-left, Top-left, Bottom-right, Top-right), the
positional unpacking `bottom_left, bottom_right, top_left, top_right =
results`, and the two concatenations.  The four `let`s below are the four
entries of `results` in computed order, bound to the Python variable names
that receive them. -/
def plot_mandelbrot (xmin xmax ymin ymax : ℚ) (width height max_iter : ℕ) : List (List ℕ) :=
  let x_mid := (xmin + xmax) / 2
  let y_mid := (ymin + ymax) / 2
  let w2 := width / 2
  let h2 := height / 2
  let bottom_left := compute_mandelbrot_region xmin x_mid ymin y_mid w2 h2 max_iter
  let bottom_right := compute_mandelbrot_region xmin x_mid y_mid ymax w2 h2 max_iter
  let top_left := compute_mandelbrot_region x_mid xmax ymin y_mid w2 h2 max_iter
  let top_right := compute_mandelbrot_region x_mid xmax y_mid ymax w2 h2 max_iter
  let top := hconcat top_left top_right
  let bottom := hconcat bottom_left bottom_right
  bottom ++ top

/-- Embedding of `(width + (threadsperblock - 1)) // threadsperblock` with 16×16 thread
blocks (cuda.py lines 152-154). -/
def blocks_per_grid (n : ℕ) : ℕ := (n + (16 - 1)) / 16

/-- The sample point computed by `mandelbrot_kernel` for thread
`(column, row)` (cuda.py lines 145-146). -/
def mandelbrot_kernel_sample (min_x max_x min_y max_y : ℚ) (width height : ℕ)
    (column row : ℕ) : Cx :=
  ⟨min_x + column * (max_x - min_x) / width, min_y + row * (max_y - min_y) / height⟩

/-- Thread `(column, row)` exists in the launched block grid and passes the
kernel's boundary guard `column < width and row < height` (cuda.py
line 144). -/
def thread_writes (width height column row : ℕ) : Prop :=
  column < 16 * blocks_per_grid width ∧ row < 16 * blocks_per_grid height ∧
  column < width ∧ row < height

instance (width height column row : ℕ) : Decidable (thread_writes width height column row) := by
  unfold thread_writes; infer_instance

/-- Value of cell `(row, column)` of the GPU image after the kernel launch:
the `np.zeros` initial value `0` unless some launched thread writes the
cell (threads write disjoint cells, so order is irrelevant). -/
def gpu_cell (min_x max_x min_y max_y : ℚ) (width height max_iter : ℕ) (row column : ℕ) : ℕ :=
  if thread_writes width height column row then
    mandelbrot_cuda (mandelbrot_kernel_sample min_x max_x min_y max_y width height column row)
      max_iter
  else 0

/-- Embedding of `compute_mandelbrot_gpu` (cuda.py lines 150-163): the `(height, width)`
image after the kernel launch and `cuda.synchronize()`. -/
def compute_mandelbrot_gpu (min_x max_x min_y max_y : ℚ) (width height max_iter : ℕ) :
    List (List ℕ) :=
  (List.range height).map (fun row => (List.range width).map (fun column =>
    gpu_cell min_x max_x min_y max_y width height max_iter row column))

/-- Entry `(r, c)` of a grid, `0` out of bounds. -/
def cell (g : List (List ℕ)) (r c : ℕ) : ℕ := (g.getD r []).getD c 0

/-- Assembly layout as the spec words it (claim C4): `Top-left` beside
`Top-right` forms the top half, `Bottom-left` beside `Bottom-right` the
bottom half, and the bottom half precedes the top half. -/
def spec_assembly (xmin xmax ymin ymax : ℚ) (width height max_iter : ℕ) : List (List ℕ) :=
  let x_mid := (xmin + xmax) / 2
  let y_mid := (ymin + ymax) / 2
  let w2 := width / 2
  let h2 := height / 2
  let bl := compute_mandelbrot_region xmin x_mid ymin y_mid w2 h2 max_iter
  let br := compute_mandelbrot_region x_mid xmax ymin y_mid w2 h2 max_iter
  let tl := compute_mandelbrot_region xmin x_mid y_mid ymax w2 h2 max_iter
  let tr := compute_mandelbrot_region x_mid xmax y_mid ymax w2 h2 max_iter
  hconcat bl br ++ hconcat tl tr

/-- The per-column real parts claimed by the spec for both paths (claim C5):
`re = xmin + col*(xmax-xmin)/width`. -/
def spec_x_samples (xmin xmax : ℚ) (width : ℕ) : List ℚ :=
  (List.range width).map (fun col : ℕ => xmin + (col : ℚ) * (xmax - xmin) / (width : ℚ))

/-- The real parts the CPU path actually samples across one row of the full
image: the left-half regions take `linspace` over `[xmin, x_mid]`, the
right-half regions over `[x_mid, xmax]` (cuda.py lines 21 and 86-91). -/
def cpu_x_samples (xmin xmax : ℚ) (width : ℕ) : List ℚ :=
  linspace xmin ((xmin + xmax) / 2) (width / 2) ++ linspace ((xmin + xmax) / 2) xmax (width / 2)

lemma getD_map_range {α : Type} (f : ℕ → α) (n r : ℕ) (d : α) (h : r < n) :
    ((List.range n).map f).getD r d = f r := by
  rw [List.getD_eq_getElem _ _ (by simpa using h)]
  simp

lemma hconcat_length (A B : List (List ℕ)) :
    (hconcat A B).length = min A.length B.length := by
  simp [hconcat]

lemma hconcat_getD (A B : List (List ℕ)) (r : ℕ) (hA : r < A.length) (hB : r < B.length) :
    (hconcat A B).getD r [] = A.getD r [] ++ B.getD r [] := by
  unfold hconcat
  rw [List.getD_eq_getElem _ _ (by simp; omega)]
  rw [List.getElem_zipWith]
  rw [List.getD_eq_getElem _ _ hA, List.getD_eq_getElem _ _ hB]

lemma hconcat_mem {A B : List (List ℕ)} {r : List ℕ} (h : r ∈ hconcat A B) :
    ∃ a ∈ A, ∃ b ∈ B, r = a ++ b := by
  unfold hconcat at h
  induction A generalizing B with
  | nil => simp at h
  | cons a as ih =>
      cases B with
      | nil => simp at h
      | cons b bs =>
          simp only [List.zipWith, List.mem_cons] at h
          rcases h with h | h
          · exact ⟨a, by simp, b, by simp, h⟩
          · obtain ⟨a1, ha, b1, hb, rfl⟩ := ih h
            exact ⟨a1, by simp [ha], b1, by simp [hb], rfl⟩

lemma region_length (xmin xmax ymin ymax : ℚ) (width height max_iter : ℕ) :
    (compute_mandelbrot_region xmin xmax ymin ymax width height max_iter).length = height := by
  simp [compute_mandelbrot_region, reshape2]

lemma region_row_length {xmin xmax ymin ymax : ℚ} {width height max_iter : ℕ}
    {row : List ℕ}
    (h : row ∈ compute_mandelbrot_region xmin xmax ymin ymax width height max_iter) :
    row.length = width := by
  simp only [compute_mandelbrot_region, reshape2, List.mem_map] at h
  obtain ⟨r, _, rfl⟩ := h
  simp

lemma region_getD_length (xmin xmax ymin ymax : ℚ) (width height max_iter : ℕ)
    (r : ℕ) (h : r < height) :
    ((compute_mandelbrot_region xmin xmax ymin ymax width height max_iter).getD r []).length
      = width := by
  simp only [compute_mandelbrot_region, reshape2]
  rw [getD_map_range _ _ _ _ h]
  simp

-- The loop, started at `z_k` with `fuel` iterations left, either runs out of
-- fuel with no escape among the next `fuel` orbit points, or stops at the
-- first escaped orbit point in that window.
lemma mandelbrotGo_orbit_spec (c : Cx) : ∀ (fuel k : ℕ),
    (mandelbrotGo c (orbit c k) fuel = fuel ∧ ∀ j, j < fuel → ¬ escaped c (k + j))
  ∨ (mandelbrotGo c (orbit c k) fuel < fuel ∧
      escaped c (k + mandelbrotGo c (orbit c k) fuel) ∧
      ∀ j, j < mandelbrotGo c (orbit c k) fuel → ¬ escaped c (k + j)) := by
  intro fuel
  induction fuel with
  | zero =>
      intro k
      exact Or.inl ⟨rfl, fun j hj => absurd hj (Nat.not_lt_zero j)⟩
  | succ n ih =>
      intro k
      by_cases h : (orbit c k).normSq ≤ 4
      · have hne : ¬ escaped c k := not_lt.mpr h
        have hgo : mandelbrotGo c (orbit c k) (n + 1)
            = mandelbrotGo c (orbit c (k + 1)) n + 1 := by
          simp [mandelbrotGo, h, orbit]
        rcases ih (k + 1) with ⟨heq, hall⟩ | ⟨hlt, hesc, hall⟩
        · refine Or.inl ⟨by rw [hgo, heq], ?_⟩
          intro j hj
          cases j with
          | zero => simpa using hne
          | succ i =>
              have : i < n := by omega
              have := hall i this
              simpa [Nat.add_assoc, Nat.add_comm 1 i] using this
        · refine Or.inr ⟨by omega, ?_, ?_⟩
          · rw [hgo]
            have : k + (mandelbrotGo c (orbit c (k + 1)) n + 1)
                = (k + 1) + mandelbrotGo c (orbit c (k + 1)) n := by omega
            rw [this]
            exact hesc
          · intro j hj
            rw [hgo] at hj
            cases j with
            | zero => simpa using hne
            | succ i =>
                have : i < mandelbrotGo c (orbit c (k + 1)) n := by omega
                have := hall i this
                simpa [Nat.add_assoc, Nat.add_comm 1 i] using this
      · have hesc : escaped c k := not_le.mp h
        have hgo : mandelbrotGo c (orbit c k) (n + 1) = 0 := by
          simp [mandelbrotGo, h]
        refine Or.inr ⟨by omega, ?_, ?_⟩
        · rw [hgo]; simpa using hesc
        · intro j hj
          rw [hgo] at hj
          exact absurd hj (Nat.not_lt_zero j)

lemma mandelbrot_eq_go_orbit (c : Cx) (max_iter : ℕ) :
    mandelbrot c max_iter = mandelbrotGo c (orbit c 0) max_iter := rfl

/-- C2: For every complex sample `c` and positive `max_iter`, the escape
evaluator returns the smallest `n` in `[0, max_iter]` such that iterating
`z ← z² + c` from `z = 0` yields `|z| > 2` after `n` steps, or `max_iter`
if no such `n` exists within the bound. -/
theorem mandelbrot_smallest_escape (c : Cx) (max_iter : ℕ) (hpos : 0 < max_iter) :
    mandelbrot c max_iter ≤ max_iter ∧
    ((∃ n, n ≤ max_iter ∧ escaped c n) →
      escaped c (mandelbrot c max_iter) ∧
      ∀ k, k < mandelbrot c max_iter → ¬ escaped c k) ∧
    ((∀ n, n ≤ max_iter → ¬ escaped c n) → mandelbrot c max_iter = max_iter) := by
  have hle : mandelbrot c max_iter ≤ max_iter := mandelbrotGo_le c max_iter _
  have hspec := mandelbrotGo_orbit_spec c max_iter 0
  rw [← mandelbrot_eq_go_orbit] at hspec
  simp only [Nat.zero_add] at hspec
  refine ⟨hle, ?_, ?_⟩
  · rintro ⟨n, hn, hesc⟩
    rcases hspec with ⟨heq, hall⟩ | ⟨_, hesc', hall⟩
    · rcases Nat.lt_or_ge n max_iter with hlt | hge
      · exact absurd hesc (hall n hlt)
      · have hnm : n = max_iter := Nat.le_antisymm hn hge
        subst hnm
        refine ⟨?_, ?_⟩
        · rw [heq]; exact hesc
        · intro k hk
          rw [heq] at hk
          exact hall k hk
    · exact ⟨hesc', hall⟩
  · intro hnone
    rcases hspec with ⟨heq, _⟩ | ⟨hlt, hesc', _⟩
    · exact heq
    · exact absurd hesc' (hnone _ (Nat.le_of_lt hlt))

/-- Witness for C2 at `c = 3`, `max_iter = 2`. -/
theorem mandelbrot_smallest_escape_witness :
    0 < 2 ∧
    (mandelbrot ⟨3, 0⟩ 2 ≤ 2 ∧
    ((∃ n, n ≤ 2 ∧ escaped ⟨3, 0⟩ n) →
      escaped ⟨3, 0⟩ (mandelbrot ⟨3, 0⟩ 2) ∧
      ∀ k, k < mandelbrot ⟨3, 0⟩ 2 → ¬ escaped ⟨3, 0⟩ k) ∧
    ((∀ n, n ≤ 2 → ¬ escaped ⟨3, 0⟩ n) → mandelbrot ⟨3, 0⟩ 2 = 2)) :=
  ⟨by decide, mandelbrot_smallest_escape ⟨3, 0⟩ 2 (by decide)⟩

/-- Witness for the amended C3 at `c = 0 - 3i`, `max_iter = 7`. -/
theorem mandelbrot_outside_returns_one_witness :
    (0 < 7 ∧ 4 < (Cx.normSq ⟨0, -3⟩)) ∧
      (mandelbrot ⟨0, -3⟩ 7 = 1 ∧ mandelbrot_cuda ⟨0, -3⟩ 7 = 1) :=
  ⟨⟨by decide, by norm_num [Cx.normSq]⟩,
    mandelbrot_outside_returns_one ⟨0, -3⟩ 7 (by decide) (by norm_num [Cx.normSq])⟩

-- Cell access in a `hconcat _ _ ++ hconcat _ _` assembly of four grids of
-- uniform quadrant shape `h2 × w2`.
lemma quad_cell (X Y Z W : List (List ℕ)) (h2 w2 r c : ℕ)
    (hX : X.length = h2) (hY : Y.length = h2) (hZ : Z.length = h2) (hW : W.length = h2)
    (hXrow : (X.getD r []).length = w2) (hZrow : (Z.getD r []).length = w2)
    (hr : r < h2) (hc : c < w2) :
    cell (hconcat X Y ++ hconcat Z W) r c = cell X r c ∧
    cell (hconcat X Y ++ hconcat Z W) r (w2 + c) = cell Y r c ∧
    cell (hconcat X Y ++ hconcat Z W) (h2 + r) c = cell Z r c ∧
    cell (hconcat X Y ++ hconcat Z W) (h2 + r) (w2 + c) = cell W r c := by
  have hlen1 : (hconcat X Y).length = h2 := by rw [hconcat_length, hX, hY, min_self]
  have hlen2 : (hconcat Z W).length = h2 := by rw [hconcat_length, hZ, hW, min_self]
  have hrX : r < X.length := by rw [hX]; exact hr
  have hrY : r < Y.length := by rw [hY]; exact hr
  have hrZ : r < Z.length := by rw [hZ]; exact hr
  have hrW : r < W.length := by rw [hW]; exact hr
  unfold cell
  refine ⟨?_, ?_, ?_, ?_⟩
  · rw [List.getD_append _ _ _ _ (by rw [hlen1]; exact hr)]
    rw [hconcat_getD X Y r hrX hrY]
    rw [List.getD_append _ _ _ _ (by rw [hXrow]; exact hc)]
  · rw [List.getD_append _ _ _ _ (by rw [hlen1]; exact hr)]
    rw [hconcat_getD X Y r hrX hrY]
    rw [List.getD_append_right _ _ _ _ (by rw [hXrow]; omega)]
    rw [hXrow, Nat.add_sub_cancel_left]
  · rw [List.getD_append_right _ _ _ _ (by rw [hlen1]; omega)]
    rw [hlen1, Nat.add_sub_cancel_left]
    rw [hconcat_getD Z W r hrZ hrW]
    rw [List.getD_append _ _ _ _ (by rw [hZrow]; exact hc)]
  · rw [List.getD_append_right _ _ _ _ (by rw [hlen1]; omega)]
    rw [hlen1, Nat.add_sub_cancel_left]
    rw [hconcat_getD Z W r hrZ hrW]
    rw [List.getD_append_right _ _ _ _ (by rw [hZrow]; omega)]
    rw [hZrow, Nat.add_sub_cancel_left]

/-- C4 (counterexample): At viewport `(-2,2)×(-2,2)`, `width = height
= 2`, `max_iter = 3`, the assembled CPU grid is `[[1,3],[2,3]]` while the
layout the claim describes (Top-left beside Top-right on top, Bottom-left
beside Bottom-right on the bottom) yields `[[1,2],[3,3]]`: the line-95 swap
and the positional unpacking place the quadrants differently. -/
theorem plot_assembly_counterexample :
    plot_mandelbrot (-2) 2 (-2) 2 2 2 3 = [[1, 3], [2, 3]] ∧
    spec_assembly (-2) 2 (-2) 2 2 2 3 = [[1, 2], [3, 3]] ∧
    plot_mandelbrot (-2) 2 (-2) 2 2 2 3 ≠ spec_assembly (-2) 2 (-2) 2 2 2 3 := by
  have h1 : plot_mandelbrot (-2) 2 (-2) 2 2 2 3 = [[1, 3], [2, 3]] := by
    norm_num [plot_mandelbrot, compute_mandelbrot_region, reshape2, linspace, hconcat,
      mandelbrot, mandelbrotGo, mandelStep, Cx.mul, Cx.add, Cx.normSq,
      List.range_succ, List.getD]
  have h2 : spec_assembly (-2) 2 (-2) 2 2 2 3 = [[1, 2], [3, 3]] := by
    norm_num [spec_assembly, compute_mandelbrot_region, reshape2, linspace, hconcat,
      mandelbrot, mandelbrotGo, mandelStep, Cx.mul, Cx.add, Cx.normSq,
      List.range_succ, List.getD]
  refine ⟨h1, h2, ?_⟩
  rw [h1, h2]
  decide

/-- C4 (amended): For every viewport and even width and height, the
assembled `height × width` CPU grid places `Bottom-left` beside `Top-left`
to form its first (bottom) half of rows, and `Bottom-right` beside
`Top-right` to form its second (top) half: cell `(r, c)` of the assembly is
cell `(r, c)` of the corresponding quadrant grid. -/
theorem plot_mandelbrot_layout (xmin xmax ymin ymax : ℚ) (width height max_iter : ℕ)
    (hweven : width % 2 = 0) (hheven : height % 2 = 0)
    (r c : ℕ) (hr : r < height / 2) (hc : c < width / 2) :
    cell (plot_mandelbrot xmin xmax ymin ymax width height max_iter) r c =
      cell (compute_mandelbrot_region xmin ((xmin + xmax) / 2) ymin ((ymin + ymax) / 2)
        (width / 2) (height / 2) max_iter) r c ∧
    cell (plot_mandelbrot xmin xmax ymin ymax width height max_iter) r (width / 2 + c) =
      cell (compute_mandelbrot_region xmin ((xmin + xmax) / 2) ((ymin + ymax) / 2) ymax
        (width / 2) (height / 2) max_iter) r c ∧
    cell (plot_mandelbrot xmin xmax ymin ymax width height max_iter) (height / 2 + r) c =
      cell (compute_mandelbrot_region ((xmin + xmax) / 2) xmax ymin ((ymin + ymax) / 2)
        (width / 2) (height / 2) max_iter) r c ∧
    cell (plot_mandelbrot xmin xmax ymin ymax width height max_iter)
        (height / 2 + r) (width / 2 + c) =
      cell (compute_mandelbrot_region ((xmin + xmax) / 2) xmax ((ymin + ymax) / 2) ymax
        (width / 2) (height / 2) max_iter) r c := by
  simp only [plot_mandelbrot]
  exact quad_cell _ _ _ _ (height / 2) (width / 2) r c
    (region_length _ _ _ _ _ _ _) (region_length _ _ _ _ _ _ _)
    (region_length _ _ _ _ _ _ _) (region_length _ _ _ _ _ _ _)
    (region_getD_length _ _ _ _ _ _ _ _ hr) (region_getD_length _ _ _ _ _ _ _ _ hr)
    hr hc

/-- Witness for the amended C4 at viewport `(-2,2)×(-2,2)`, `width = height
= 2`, `max_iter = 3`, cell `(0,0)`. -/
theorem plot_mandelbrot_layout_witness :
    (2 % 2 = 0 ∧ 0 < 2 / 2 ∧ 0 < 2 / 2) ∧
    (cell (plot_mandelbrot (-2) 2 (-2) 2 2 2 3) 0 0 =
      cell (compute_mandelbrot_region (-2) (((-2) + 2) / 2) (-2) (((-2) + 2) / 2)
        (2 / 2) (2 / 2) 3) 0 0 ∧
    cell (plot_mandelbrot (-2) 2 (-2) 2 2 2 3) 0 (2 / 2 + 0) =
      cell (compute_mandelbrot_region (-2) (((-2) + 2) / 2) (((-2) + 2) / 2) 2
        (2 / 2) (2 / 2) 3) 0 0 ∧
    cell (plot_mandelbrot (-2) 2 (-2) 2 2 2 3) (2 / 2 + 0) 0 =
      cell (compute_mandelbrot_region (((-2) + 2) / 2) 2 (-2) (((-2) + 2) / 2)
        (2 / 2) (2 / 2) 3) 0 0 ∧
    cell (plot_mandelbrot (-2) 2 (-2) 2 2 2 3) (2 / 2 + 0) (2 / 2 + 0) =
      cell (compute_mandelbrot_region (((-2) + 2) / 2) 2 (((-2) + 2) / 2) 2
        (2 / 2) (2 / 2) 3) 0 0) :=
  ⟨⟨by decide, by decide, by decide⟩,
    plot_mandelbrot_layout (-2) 2 (-2) 2 2 2 3 (by decide) (by decide) 0 0
      (by decide) (by decide)⟩

/-- C5 (counterexample): At viewport x-range `[0, 4]` with `width = 4`,
the CPU path samples real parts `[0, 2, 2, 4]` (boundary-inclusive
`linspace` over each half), while the mapping the claim prescribes for both
paths gives `[0, 1, 2, 3]`. -/
theorem sample_mapping_counterexample :
    cpu_x_samples 0 4 4 = [0, 2, 2, 4] ∧ spec_x_samples 0 4 4 = [0, 1, 2, 3] ∧
    cpu_x_samples 0 4 4 ≠ spec_x_samples 0 4 4 := by
  have h1 : cpu_x_samples 0 4 4 = [0, 2, 2, 4] := by
    norm_num [cpu_x_samples, linspace, List.range_succ]
  have h2 : spec_x_samples 0 4 4 = [0, 1, 2, 3] := by
    norm_num [spec_x_samples, List.range_succ]
  refine ⟨h1, h2, ?_⟩
  rw [h1, h2]
  intro h
  simp only [List.cons.injEq] at h
  exact absurd h.2.1 (by norm_num)

/-- C5 (amended): The GPU kernel maps thread `(column, row)` to
`re = min_x + column*(max_x-min_x)/width`, `im = min_y + row*(max_y-min_y)/height`,
while the CPU path samples each region with boundary-inclusive spacing:
entry `i` of `linspace a b n` is `a + i*(b-a)/(n-1)`.  The two mappings use
different denominators, so the paths do not in general evaluate the
recurrence at identical samples. -/
theorem sample_mapping_amended (min_x max_x min_y max_y a b : ℚ)
    (width height column row n i : ℕ) (hi : i < n) :
    mandelbrot_kernel_sample min_x max_x min_y max_y width height column row =
      ⟨min_x + column * (max_x - min_x) / width, min_y + row * (max_y - min_y) / height⟩ ∧
    (linspace a b n).getD i 0 = a + i * (b - a) / ((n : ℚ) - 1) := by
  unfold linspace
  exact ⟨rfl, getD_map_range _ n i 0 hi⟩

/-- Witness for the amended C5 at the viewport x-range `[0, 4]`, `width =
height = 4`, thread `(1, 1)`, `linspace 0 4` with `n = 2`, `i = 1`. -/
theorem sample_mapping_amended_witness :
    1 < 2 ∧
    (mandelbrot_kernel_sample 0 4 0 4 4 4 1 1 =
      ⟨0 + 1 * (4 - 0) / 4, 0 + 1 * (4 - 0) / 4⟩ ∧
    (linspace 0 4 2).getD 1 0 = 0 + 1 * (4 - 0) / ((2 : ℚ) - 1)) :=
  ⟨by decide, sample_mapping_amended 0 4 0 4 0 4 4 4 1 1 2 1 (by decide)⟩

/-- C6 (counterexample): At viewport `(-2,2)×(-2,2)` (valid: `-2 < 2`),
even positive `width = height = 2` and `max_iter = 3`, the CPU path yields
`[[1,3],[2,3]]` and the GPU path `[[1,2],[3,3]]`: the grids disagree. -/
theorem cpu_gpu_disagree_counterexample :
    ((-2 : ℚ) < 2) ∧ (2 % 2 = 0 ∧ 0 < 2 ∧ 0 < 3) ∧
    plot_mandelbrot (-2) 2 (-2) 2 2 2 3 = [[1, 3], [2, 3]] ∧
    compute_mandelbrot_gpu (-2) 2 (-2) 2 2 2 3 = [[1, 2], [3, 3]] ∧
    plot_mandelbrot (-2) 2 (-2) 2 2 2 3 ≠ compute_mandelbrot_gpu (-2) 2 (-2) 2 2 2 3 := by
  have h1 : plot_mandelbrot (-2) 2 (-2) 2 2 2 3 = [[1, 3], [2, 3]] := by
    norm_num [plot_mandelbrot, compute_mandelbrot_region, reshape2, linspace, hconcat,
      mandelbrot, mandelbrotGo, mandelStep, Cx.mul, Cx.add, Cx.normSq,
      List.range_succ, List.getD]
  have h2 : compute_mandelbrot_gpu (-2) 2 (-2) 2 2 2 3 = [[1, 2], [3, 3]] := by
    norm_num [compute_mandelbrot_gpu, gpu_cell, thread_writes, blocks_per_grid,
      mandelbrot_kernel_sample, mandelbrot_cuda, mandelbrotCudaGo, mandelStep,
      Cx.mul, Cx.add, Cx.normSq, List.range_succ]
  refine ⟨by norm_num, by decide, h1, h2, ?_⟩
  rw [h1, h2]
  decide

/-- C6 (amended): For every viewport with `xmin < xmax`, `ymin < ymax`,
even positive `width` and `height`, and positive `max_iter`, the CPU path
and the GPU path both produce grids of shape `height × width`; but they do
not agree cell-for-cell in general, because the CPU path samples each
quadrant with boundary-inclusive `linspace` over the quadrant's own bounds
while the GPU path uses the exclusive full-viewport mapping. -/
theorem cpu_gpu_shape (xmin xmax ymin ymax : ℚ) (width height max_iter : ℕ)
    (hx : xmin < xmax) (hy : ymin < ymax)
    (hweven : width % 2 = 0) (hheven : height % 2 = 0)
    (hw : 0 < width) (hh : 0 < height) (hm : 0 < max_iter) :
    (plot_mandelbrot xmin xmax ymin ymax width height max_iter).length = height ∧
    (∀ row ∈ plot_mandelbrot xmin xmax ymin ymax width height max_iter,
      row.length = width) ∧
    (compute_mandelbrot_gpu xmin xmax ymin ymax width height max_iter).length = height ∧
    (∀ row ∈ compute_mandelbrot_gpu xmin xmax ymin ymax width height max_iter,
      row.length = width) := by
  refine ⟨?_, ?_, ?_, ?_⟩
  · simp only [plot_mandelbrot]
    rw [List.length_append, hconcat_length, hconcat_length,
      region_length, region_length, region_length, region_length]
    omega
  · intro row hrow
    simp only [plot_mandelbrot, List.mem_append] at hrow
    rcases hrow with hrow | hrow <;>
    · obtain ⟨a, ha, b, hb, rfl⟩ := hconcat_mem hrow
      rw [List.length_append, region_row_length ha, region_row_length hb]
      omega
  · simp [compute_mandelbrot_gpu]
  · intro row hrow
    simp only [compute_mandelbrot_gpu, List.mem_map] at hrow
    obtain ⟨r, _, rfl⟩ := hrow
    simp

/-- Witness for the amended C6 at viewport `(-2,2)×(-2,2)`, `width = height
= 2`, `max_iter = 3`. -/
theorem cpu_gpu_shape_witness :
    ((-2 : ℚ) < 2 ∧ 2 % 2 = 0 ∧ 0 < 2 ∧ 0 < 3) ∧
    ((plot_mandelbrot (-2) 2 (-2) 2 2 2 3).length = 2 ∧
    (∀ row ∈ plot_mandelbrot (-2) 2 (-2) 2 2 2 3, row.length = 2) ∧
    (compute_mandelbrot_gpu (-2) 2 (-2) 2 2 2 3).length = 2 ∧
    (∀ row ∈ compute_mandelbrot_gpu (-2) 2 (-2) 2 2 2 3, row.length = 2)) :=
  ⟨⟨by norm_num, by decide, by decide, by decide⟩,
    cpu_gpu_shape (-2) 2 (-2) 2 2 2 3 (by norm_num) (by norm_num)
      (by decide) (by decide) (by decide) (by decide) (by decide)⟩

/-- C7 (counterexample): At the inverted viewport `xmin = 2 ≥ xmax =
-2`, `ymin = 2 ≥ ymax = -2` (with `width = height = 2`, `max_iter = 3`),
neither entry point rejects the call: both compute and return full grids. -/
theorem no_rejection_counterexample :
    ((-2 : ℚ) ≤ 2) ∧
    compute_mandelbrot_gpu 2 (-2) 2 (-2) 2 2 3 = [[1, 2], [2, 3]] ∧
    plot_mandelbrot 2 (-2) 2 (-2) 2 2 3 = [[1, 2], [2, 3]] := by
  refine ⟨by norm_num, ?_, ?_⟩
  · norm_num [compute_mandelbrot_gpu, gpu_cell, thread_writes, blocks_per_grid,
      mandelbrot_kernel_sample, mandelbrot_cuda, mandelbrotCudaGo, mandelStep,
      Cx.mul, Cx.add, Cx.normSq, List.range_succ]
  · norm_num [plot_mandelbrot, compute_mandelbrot_region, reshape2, linspace, hconcat,
      mandelbrot, mandelbrotGo, mandelStep, Cx.mul, Cx.add, Cx.normSq,
      List.range_succ, List.getD]

/-- C7 (amended): Neither entry point validates the viewport: for every
input with `xmax ≤ xmin` or `ymax ≤ ymin`, both still return ordinary
grids of the usual shapes (`height/2 + height/2` rows of `width/2 +
width/2` cells for the CPU path, `height` rows of `width` cells for the
GPU path) instead of surfacing any failure. -/
theorem no_viewport_validation (xmin xmax ymin ymax : ℚ) (width height max_iter : ℕ)
    (hinv : xmax ≤ xmin ∨ ymax ≤ ymin) :
    (plot_mandelbrot xmin xmax ymin ymax width height max_iter).length
      = height / 2 + height / 2 ∧
    (∀ row ∈ plot_mandelbrot xmin xmax ymin ymax width height max_iter,
      row.length = width / 2 + width / 2) ∧
    (compute_mandelbrot_gpu xmin xmax ymin ymax width height max_iter).length = height ∧
    (∀ row ∈ compute_mandelbrot_gpu xmin xmax ymin ymax width height max_iter,
      row.length = width) := by
  refine ⟨?_, ?_, ?_, ?_⟩
  · simp only [plot_mandelbrot]
    rw [List.length_append, hconcat_length, hconcat_length,
      region_length, region_length, region_length, region_length]
    omega
  · intro row hrow
    simp only [plot_mandelbrot, List.mem_append] at hrow
    rcases hrow with hrow | hrow <;>
    · obtain ⟨a, ha, b, hb, rfl⟩ := hconcat_mem hrow
      rw [List.length_append, region_row_length ha, region_row_length hb]
  · simp [compute_mandelbrot_gpu]
  · intro row hrow
    simp only [compute_mandelbrot_gpu, List.mem_map] at hrow
    obtain ⟨r, _, rfl⟩ := hrow
    simp

/-- Witness for the amended C7 at the inverted viewport `xmin = 2`, `xmax =
-2`, `ymin = 2`, `ymax = -2`, `width = height = 2`, `max_iter = 3`. -/
theorem no_viewport_validation_witness :
    ((-2 : ℚ) ≤ 2 ∨ (-2 : ℚ) ≤ 2) ∧
    ((plot_mandelbrot 2 (-2) 2 (-2) 2 2 3).length = 2 / 2 + 2 / 2 ∧
    (∀ row ∈ plot_mandelbrot 2 (-2) 2 (-2) 2 2 3, row.length = 2 / 2 + 2 / 2) ∧
    (compute_mandelbrot_gpu 2 (-2) 2 (-2) 2 2 3).length = 2 ∧
    (∀ row ∈ compute_mandelbrot_gpu 2 (-2) 2 (-2) 2 2 3, row.length = 2)) :=
  ⟨Or.inl (by norm_num),
    no_viewport_validation 2 (-2) 2 (-2) 2 2 3 (Or.inl (by norm_num))⟩

/-- C9: For positive `width` and `height`, the 16×16 block grid
computed with ceiling division covers all pixels (`width ≤
16*blocks_per_grid width` and likewise for `height`), a thread writes
`image[row, column]` exactly when `column < width` and `row < height`, and
every in-bounds cell of the `(height, width)` output holds the kernel's
value for its own pixel. -/
theorem gpu_coverage (width height : ℕ) (hw : 0 < width) (hh : 0 < height) :
    width ≤ 16 * blocks_per_grid width ∧ height ≤ 16 * blocks_per_grid height ∧
    (∀ column row, thread_writes width height column row ↔
      column < width ∧ row < height) ∧
    (∀ (min_x max_x min_y max_y : ℚ) (max_iter row column : ℕ),
      row < height → column < width →
      cell (compute_mandelbrot_gpu min_x max_x min_y max_y width height max_iter) row column
        = mandelbrot_cuda
            (mandelbrot_kernel_sample min_x max_x min_y max_y width height column row)
            max_iter) := by
  have hcov : ∀ n : ℕ, n ≤ 16 * blocks_per_grid n := by
    intro n
    unfold blocks_per_grid
    omega
  refine ⟨hcov width, hcov height, ?_, ?_⟩
  · intro column row
    unfold thread_writes
    constructor
    · rintro ⟨_, _, h3, h4⟩
      exact ⟨h3, h4⟩
    · rintro ⟨h3, h4⟩
      exact ⟨lt_of_lt_of_le h3 (hcov width), lt_of_lt_of_le h4 (hcov height), h3, h4⟩
  · intro min_x max_x min_y max_y max_iter row column hrow hcol
    unfold cell compute_mandelbrot_gpu
    rw [getD_map_range _ _ _ _ hrow, getD_map_range _ _ _ _ hcol]
    unfold gpu_cell
    rw [if_pos]
    exact ⟨lt_of_lt_of_le hcol (hcov width), lt_of_lt_of_le hrow (hcov height), hcol, hrow⟩

/-- Witness for C9 at `width = 17`, `height = 1`. -/
theorem gpu_coverage_witness :
    (0 < 17 ∧ 0 < 1) ∧
    (17 ≤ 16 * blocks_per_grid 17 ∧ 1 ≤ 16 * blocks_per_grid 1 ∧
    (∀ column row, thread_writes 17 1 column row ↔ column < 17 ∧ row < 1) ∧
    (∀ (min_x max_x min_y max_y : ℚ) (max_iter row column : ℕ),
      row < 1 → column < 17 →
      cell (compute_mandelbrot_gpu min_x max_x min_y max_y 17 1 max_iter) row column
        = mandelbrot_cuda
            (mandelbrot_kernel_sample min_x max_x min_y max_y 17 1 column row)
            max_iter)) :=
  ⟨⟨by decide, by decide⟩, gpu_coverage 17 1 (by decide) (by decide)⟩
